import Mathlib

/-!
Verification of the mount utilities and mount-pod manager of the
jsafrane/kubernetes tree (pkg/util/mount, pkg/volume, kubelet volume host).

The Go code is shallowly embedded: each Go function becomes a Lean
definition over explicit inputs; interactions with the operating system
(running the mount binary, reading /proc files, executing fsck/mkfs/lsblk)
are passed in as explicit environment parameters, and the commands a
function would run are returned as an explicit trace.
-/

namespace KubeMount

/-! ## pkg/util/mount: option handling (mount_linux.go, exec_mount.go) -/

/-- One step of the option loop of `isBind` (mount_linux.go).  The Go
`switch` sets `bind` on "bind", skips "remount", and appends every other
option to `bindRemountOpts`. -/
def isBindStep (acc : Bool × List String) (opt : String) : Bool × List String :=
  match opt with
  | "bind" => (true, acc.2)
  | "remount" => acc
  | _ => (acc.1, acc.2 ++ [opt])

/-- `isBind` of mount_linux.go: detects a bind mount request and builds the
remount option list, starting from `["remount"]` and folding the loop body
over the requested options. -/
def isBind (options : List String) : Bool × List String :=
  options.foldl isBindStep (false, ["remount"])

/-- A single invocation of the underlying mount command (`doMount` in
mount_linux.go / `doExecMount` in exec_mount.go), recorded as a trace
event. -/
structure MountCall where
  source : String
  target : String
  fstype : String
  options : List String
  deriving DecidableEq, Repr

/-- The environment tells, for each underlying mount invocation, whether it
succeeds.  This stands for the exit status of the spawned mount binary. -/
def MountEnv := MountCall → Bool

/-- `Mounter.Mount` (mount_linux.go): on a bind request it issues the mount
twice, first with only `"bind"`, then with the remount options; otherwise a
single invocation with the caller's options.  Returns whether the call
succeeded together with the trace of underlying invocations, mirroring the
early return when the first bind invocation fails. -/
def mounterMount (env : MountEnv) (source target fstype : String)
    (options : List String) : Bool × List MountCall :=
  let br := isBind options
  if br.1 then
    let c1 : MountCall := ⟨source, target, fstype, ["bind"]⟩
    if env c1 then
      let c2 : MountCall := ⟨source, target, fstype, br.2⟩
      (env c2, [c1, c2])
    else
      (false, [c1])
  else
    let c : MountCall := ⟨source, target, fstype, options⟩
    (env c, [c])

/-- `execMounter.Mount` (exec_mount.go): identical bind handling, with
`doExecMount` as the underlying invocation. -/
def execMounterMount (env : MountEnv) (source target fstype : String)
    (options : List String) : Bool × List MountCall :=
  let br := isBind options
  if br.1 then
    let c1 : MountCall := ⟨source, target, fstype, ["bind"]⟩
    if env c1 then
      let c2 : MountCall := ⟨source, target, fstype, br.2⟩
      (env c2, [c1, c2])
    else
      (false, [c1])
  else
    let c : MountCall := ⟨source, target, fstype, options⟩
    (env c, [c])

theorem isBind_fst (options : List String) :
    (isBind options).1 = options.contains "bind" := by
  suffices h : ∀ (l : List String) (b : Bool) (acc : List String),
      (l.foldl isBindStep (b, acc)).1 = (b || l.contains "bind") by
    simpa [isBind] using h options false ["remount"]
  intro l
  induction l with
  | nil => intro b acc; simp
  | cons x xs ih =>
    intro b acc
    by_cases hb : x = "bind"
    · simp [hb, isBindStep, ih]
    · by_cases hr : x = "remount"
      · simp [hr, isBindStep, ih]
      · simp [isBindStep, hb, hr, ih, Ne.symm hb]

theorem isBind_snd (options : List String) :
    (isBind options).2 =
      "remount" :: options.filter (fun o => !(o == "bind" || o == "remount")) := by
  suffices h : ∀ (l : List String) (b : Bool) (acc : List String),
      (l.foldl isBindStep (b, acc)).2 =
        acc ++ l.filter (fun o => !(o == "bind" || o == "remount")) by
    simpa [isBind] using h options false ["remount"]
  intro l
  induction l with
  | nil => intro b acc; simp
  | cons x xs ih =>
    intro b acc
    by_cases hb : x = "bind"
    · simp [hb, isBindStep, ih, List.filter]
    · by_cases hr : x = "remount"
      · simp [hr, isBindStep, ih, List.filter]
      · simp [isBindStep, hb, hr, ih, List.filter_cons, beq_iff_eq]

/-- C1: for every options list containing "bind", both `Mounter.Mount` and
`execMounter.Mount` issue exactly two underlying mount invocations (given
that the first one succeeds): the first with options exactly `["bind"]`,
the second with `"remount"` followed by every requested option other than
`"bind"` and `"remount"`. -/
theorem mount_bind_issues_two_invocations (env : MountEnv)
    (source target fstype : String) (options : List String)
    (hbind : "bind" ∈ options)
    (h1 : env ⟨source, target, fstype, ["bind"]⟩ = true) :
    (mounterMount env source target fstype options).2 =
      [⟨source, target, fstype, ["bind"]⟩,
       ⟨source, target, fstype,
        "remount" :: options.filter (fun o => !(o == "bind" || o == "remount"))⟩] ∧
    (execMounterMount env source target fstype options).2 =
      [⟨source, target, fstype, ["bind"]⟩,
       ⟨source, target, fstype,
        "remount" :: options.filter (fun o => !(o == "bind" || o == "remount"))⟩] := by
  have hfst : (isBind options).1 = true := by
    rw [isBind_fst]; exact List.elem_eq_true_of_mem hbind
  constructor
  · simp [mounterMount, hfst, h1, isBind_snd]
  · simp [execMounterMount, hfst, h1, isBind_snd]

/-- Witness for C1 at the spec's example `["bind", "noatime"]`: the second
invocation carries `remount` and `noatime` and no duplicate `bind`. -/
theorem mount_bind_issues_two_invocations_witness :
    (mounterMount (fun _ => true) "/dev/sda" "/mnt" "" ["bind", "noatime"]).2 =
      [⟨"/dev/sda", "/mnt", "", ["bind"]⟩,
       ⟨"/dev/sda", "/mnt", "", ["remount", "noatime"]⟩] ∧
    (execMounterMount (fun _ => true) "/dev/sda" "/mnt" "" ["bind", "noatime"]).2 =
      [⟨"/dev/sda", "/mnt", "", ["bind"]⟩,
       ⟨"/dev/sda", "/mnt", "", ["remount", "noatime"]⟩] := by
  have h := mount_bind_issues_two_invocations (fun _ => true) "/dev/sda" "/mnt" ""
    ["bind", "noatime"] (by decide) rfl
  simpa using h

/-! ## pkg/util/mount: consistent snapshot reads of /proc files -/

/-- `maxListTries` (mount_linux.go): how many times to retry for a
consistent read of /proc/mounts. -/
def maxListTries : Nat := 3

/-- A parsed line of /proc/mounts (`MountPoint` in types.go). -/
structure MountPoint where
  device : String
  path : String
  fstype : String
  opts : List String
  freq : Int
  pass : Int
  deriving DecidableEq, Repr

/-- Errors `listProcMounts` can return: a failed read/parse of the mount
file, or the "failed to get a consistent snapshot" error. -/
inductive ListErr
  | readFailed
  | inconsistentSnapshot
  deriving DecidableEq, Repr

/-- The environment for `listProcMounts`: the result of the n-th call to
`readProcMounts` — `none` when the read fails, otherwise the FNV hash of
the file contents (as a number) together with the parsed mount points. -/
def ReadEnv := Nat → Option (Nat × List MountPoint)

/-- The retry loop of `listProcMounts` (mount_linux.go): up to `tries` more
reads, comparing each new hash against the previous one, succeeding on the
first match and failing with the consistency error when the tries run out. -/
def listLoop (reads : ReadEnv) : Nat → Nat → Nat → Except ListErr (List MountPoint)
  | 0, _, _ => .error .inconsistentSnapshot
  | tries + 1, idx, hash1 =>
    match reads idx with
    | none => .error .readFailed
    | some (hash2, mps) =>
      if hash1 = hash2 then .ok mps
      else listLoop reads tries (idx + 1) hash2

/-- `listProcMounts` (mount_linux.go): one initial read for the hash, then
at most `maxListTries` further reads looking for two consecutive reads with
the same hash. -/
def listProcMounts (reads : ReadEnv) : Except ListErr (List MountPoint) :=
  match reads 0 with
  | none => .error .readFailed
  | some (hash1, _) => listLoop reads maxListTries 1 hash1

/-- C2: when every read succeeds, `listProcMounts` returns mount points
only from a read whose hash matches the previous read's hash (with at most
`maxListTries = 3` re-reads after the initial one), and when no two
consecutive hashes among reads 0..3 are equal it returns the consistency
error — so no mount points. -/
theorem listLoop_step (reads : ReadEnv) (tries idx hash1 hash2 : Nat)
    (mps : List MountPoint) (hr : reads idx = some (hash2, mps)) :
    listLoop reads (tries + 1) idx hash1 =
      if hash1 = hash2 then .ok mps else listLoop reads tries (idx + 1) hash2 := by
  simp only [listLoop, hr]

theorem listProcMounts_eval (reads : ReadEnv)
    (h : Nat → Nat) (m : Nat → List MountPoint)
    (hr : ∀ i, i ≤ 3 → reads i = some (h i, m i)) :
    listProcMounts reads =
      (if h 0 = h 1 then .ok (m 1)
       else if h 1 = h 2 then .ok (m 2)
       else if h 2 = h 3 then .ok (m 3)
       else .error .inconsistentSnapshot) := by
  have h0 := hr 0 (by omega)
  have h1 := hr 1 (by omega)
  have h2 := hr 2 (by omega)
  have h3 := hr 3 (by omega)
  have step0 : listProcMounts reads = listLoop reads 3 1 (h 0) := by
    simp [listProcMounts, maxListTries, h0]
  have s1 := listLoop_step reads 2 1 (h 0) (h 1) (m 1) h1
  have s2 := listLoop_step reads 1 2 (h 1) (h 2) (m 2) h2
  have s3 := listLoop_step reads 0 3 (h 2) (h 3) (m 3) h3
  rw [step0, s1]
  by_cases e1 : h 0 = h 1
  · rw [if_pos e1, if_pos e1]
  · rw [if_neg e1, if_neg e1, s2]
    by_cases e2 : h 1 = h 2
    · rw [if_pos e2, if_pos e2]
    · rw [if_neg e2, if_neg e2, s3]
      by_cases e3 : h 2 = h 3
      · rw [if_pos e3, if_pos e3]
      · rw [if_neg e3, if_neg e3]
        rfl

theorem listProcMounts_consistent_snapshot (reads : ReadEnv)
    (h : Nat → Nat) (m : Nat → List MountPoint)
    (hr : ∀ i, i ≤ 3 → reads i = some (h i, m i)) :
    (∀ mps, listProcMounts reads = .ok mps →
      ∃ i, i < 3 ∧ h i = h (i + 1) ∧ mps = m (i + 1)) ∧
    (h 0 ≠ h 1 → h 1 ≠ h 2 → h 2 ≠ h 3 →
      listProcMounts reads = .error .inconsistentSnapshot) ∧
    (∀ reads' : ReadEnv, (∀ i, i ≤ 3 → reads' i = reads i) →
      listProcMounts reads' = listProcMounts reads) := by
  refine ⟨?_, ?_, ?_⟩
  · intro mps hok
    rw [listProcMounts_eval reads h m hr] at hok
    by_cases e1 : h 0 = h 1
    · rw [if_pos e1] at hok
      injection hok with hh
      exact ⟨0, by omega, e1, hh.symm⟩
    · rw [if_neg e1] at hok
      by_cases e2 : h 1 = h 2
      · rw [if_pos e2] at hok
        injection hok with hh
        exact ⟨1, by omega, e2, hh.symm⟩
      · rw [if_neg e2] at hok
        by_cases e3 : h 2 = h 3
        · rw [if_pos e3] at hok
          injection hok with hh
          exact ⟨2, by omega, e3, hh.symm⟩
        · rw [if_neg e3] at hok
          cases hok
  · intro c1 c2 c3
    rw [listProcMounts_eval reads h m hr, if_neg c1, if_neg c2, if_neg c3]
  · intro reads' hagree
    rw [listProcMounts_eval reads h m hr,
      listProcMounts_eval reads' h m (fun i hi => (hagree i hi).trans (hr i hi))]

/-- Witness for C2: four reads whose hashes 0,1,2,3 are pairwise distinct
make `listProcMounts` fail with the consistency error. -/
theorem listProcMounts_consistent_snapshot_witness :
    listProcMounts (fun i => some (i, [])) = .error .inconsistentSnapshot :=
  (listProcMounts_consistent_snapshot (fun i => some (i, [])) (fun i => i)
    (fun _ => []) (fun _ _ => rfl)).2.1 (by decide) (by decide) (by decide)

/-! ## pkg/util/mount: the extended mount-info reader -/

/-- One parsed line of /proc/self/mountinfo (`mountInfo` in
mount_linux.go): the root, the mount point, and the list of optional
parameters (mount propagation is one of them). -/
structure mountInfo where
  root : String
  mountPoint : String
  optional : List String
  deriving DecidableEq, Repr

/-- The only error `getMountInfo` itself can surface: a failed
`parseMountInfo` (open or parse error).  The code has no consistency
error for this reader. -/
inductive InfoErr
  | parseFailed
  deriving DecidableEq, Repr

/-- Environment for `getMountInfo`: the result of the n-th call to
`parseMountInfo`, `none` when that call fails. -/
def InfoEnv := Nat → Option (List mountInfo)

/-- The retry loop of `getMountInfo` (mount_linux.go).  The Go loop
`for { ... }` has no bound; the embedding makes the number of loop
iterations explicit as fuel, returning `none` when the loop is still
running after that many iterations. -/
def gmiLoop (parses : InfoEnv) :
    Nat → List mountInfo → Nat → Option (Except InfoErr (List mountInfo))
  | 0, _, _ => none
  | fuel + 1, oldInfo, idx =>
    match parses idx with
    | none => some (.error .parseFailed)
    | some newInfo =>
      if oldInfo = newInfo then some (.ok oldInfo)
      else gmiLoop parses fuel newInfo (idx + 1)

/-- `getMountInfo` (mount_linux.go): reads the mountinfo file until two
consecutive reads parse identically.  `fuel` bounds the observed loop
iterations; `none` means the loop had not finished after `fuel` re-reads. -/
def getMountInfo (parses : InfoEnv) (fuel : Nat) :
    Option (Except InfoErr (List mountInfo)) :=
  match parses 0 with
  | none => some (.error .parseFailed)
  | some oldInfo => gmiLoop parses fuel oldInfo 1

/-- An ever-changing mountinfo file: consecutive parses never agree. -/
def altInfoReads : InfoEnv :=
  fun i => some (if i % 2 = 0 then [] else [⟨"/", "/", ["shared:1"]⟩])

theorem gmiLoop_ok_of_eq (parses : InfoEnv) :
    ∀ (fuel idx : Nat) (oldInfo infos : List mountInfo),
      parses idx = some oldInfo →
      gmiLoop parses fuel oldInfo (idx + 1) = some (.ok infos) →
      ∃ i, parses i = some infos ∧ parses (i + 1) = some infos := by
  intro fuel
  induction fuel with
  | zero => intro idx oldInfo infos _ hok; simp [gmiLoop] at hok
  | succ n ih =>
    intro idx oldInfo infos hold hok
    rw [gmiLoop] at hok
    cases hnew : parses (idx + 1) with
    | none => simp only [hnew] at hok; simp at hok
    | some newInfo =>
      simp only [hnew] at hok
      by_cases he : oldInfo = newInfo
      · rw [if_pos he] at hok
        simp at hok
        exact ⟨idx, by rw [hold, hok], by rw [hnew, ← he, hok]⟩
      · rw [if_neg he] at hok
        exact ih (idx + 1) newInfo infos hnew hok

theorem gmiLoop_none_of_ne (parses : InfoEnv)
    (hok : ∀ i, ∃ l, parses i = some l)
    (hne : ∀ i l l', parses i = some l → parses (i + 1) = some l' → l ≠ l') :
    ∀ (fuel idx : Nat) (oldInfo : List mountInfo),
      parses idx = some oldInfo →
      gmiLoop parses fuel oldInfo (idx + 1) = none := by
  intro fuel
  induction fuel with
  | zero => intro idx oldInfo _; rfl
  | succ n ih =>
    intro idx oldInfo hold
    obtain ⟨l, hl⟩ := hok (idx + 1)
    have hdiff : oldInfo ≠ l := hne idx oldInfo l hold hl
    rw [gmiLoop]
    simp only [hl]
    rw [if_neg hdiff]
    exact ih (idx + 1) l hl

/-- C3 (amended): `getMountInfo` accepts a snapshot only after two
consecutive identical parses of the mountinfo file, but it retries without
any bound: it never returns a consistency error, and when every parse
succeeds yet no two consecutive parses agree, the loop is still running
after any number of iterations. -/
theorem getMountInfo_unbounded_retry (parses : InfoEnv) (fuel : Nat) :
    (∀ infos, getMountInfo parses fuel = some (.ok infos) →
      ∃ i, parses i = some infos ∧ parses (i + 1) = some infos) ∧
    ((∀ i, ∃ l, parses i = some l) →
      (∀ i l l', parses i = some l → parses (i + 1) = some l' → l ≠ l') →
      getMountInfo parses fuel = none) := by
  constructor
  · intro infos hok
    rw [getMountInfo] at hok
    cases h0 : parses 0 with
    | none => rw [h0] at hok; simp at hok
    | some oldInfo =>
      rw [h0] at hok
      exact gmiLoop_ok_of_eq parses fuel 0 oldInfo infos h0 hok
  · intro hall hne
    obtain ⟨l0, hl0⟩ := hall 0
    rw [getMountInfo, hl0]
    exact gmiLoop_none_of_ne parses hall hne fuel 0 l0 hl0

/-- Witness for C3's amended theorem: on the ever-changing mountinfo file
the loop is still running after 7 re-reads. -/
theorem getMountInfo_unbounded_retry_witness :
    getMountInfo altInfoReads 7 = none := by
  refine (getMountInfo_unbounded_retry altInfoReads 7).2
    (fun i => ⟨if i % 2 = 0 then [] else [⟨"/", "/", ["shared:1"]⟩], rfl⟩) ?_
  intro i l l' hl hl' hc
  simp only [altInfoReads] at hl hl'
  have hv := Option.some.inj hl
  have hv' := Option.some.inj hl'
  rcases Nat.mod_two_eq_zero_or_one i with hp | hp
  · have hq : ¬(i + 1) % 2 = 0 := by omega
    rw [if_pos hp] at hv
    rw [if_neg hq] at hv'
    rw [← hv, ← hv'] at hc
    exact absurd hc (by decide)
  · have hq : (i + 1) % 2 = 0 := by omega
    rw [if_neg (by omega : ¬i % 2 = 0)] at hv
    rw [if_pos hq] at hv'
    rw [← hv, ← hv'] at hc
    exact absurd hc (by decide)

/-- Counterexample to C3 as stated: the claim requires the read to fail
after a fixed small bound of retries (`maxListTries = 3` after the initial
read), but on an ever-changing file `getMountInfo` has neither returned
mount info nor failed after 7 further reads — the loop in the code has no
bound at all. -/
theorem getMountInfo_not_bounded_counterexample :
    getMountInfo altInfoReads 7 = none ∧
    getMountInfo altInfoReads 7 ≠ some (.error .parseFailed) := by
  have h : getMountInfo altInfoReads 7 = none := rfl
  refine ⟨h, fun hcon => ?_⟩
  rw [h] at hcon
  exact Option.noConfusion hcon

/-! ## pkg/util/mount: shared mount propagation (isShared, doMakeShared) -/

/-- Go's `strings.HasPrefix(s, pre)`, modelled at the character level. -/
def goHasPre (s pre : String) : Bool :=
  pre.data.isPrefixOf s.data

/-- The backward scan of `isShared` (mount_linux.go): the Go loop walks the
mountinfo entries from the last index to the first and stops at the first
entry whose mount point is a prefix of `path`.  The recursion tries the
later entries (`rest`) before the current head. -/
def findContainingMount (path : String) : List mountInfo → Option mountInfo
  | [] => none
  | i :: rest =>
    match findContainingMount path rest with
    | some x => some x
    | none => if goHasPre path i.mountPoint then some i else none

/-- The error `isShared` returns when no mountinfo entry contains the
queried path ("cannot find mount point for ..."). -/
inductive SharedErr
  | noMountPoint
  deriving DecidableEq, Repr

/-- The optional-parameter loop of `isShared`: true as soon as one optional
parameter starts with "shared:". -/
def hasSharedFlag (info : mountInfo) : Bool :=
  info.optional.any (fun opt => goHasPre opt "shared:")

/-- `isShared` (mount_linux.go), applied to the parsed mountinfo entries
(the file has already been read by `getMountInfo`): select the containing
mount by the backward scan; no containing mount is an error; otherwise
report whether the entry carries a `shared:` optional parameter. -/
def isShared (path : String) (infos : List mountInfo) : Except SharedErr Bool :=
  match findContainingMount path infos with
  | none => .error .noMountPoint
  | some info => .ok (hasSharedFlag info)

theorem findContainingMount_eq_reverse_find (path : String) (infos : List mountInfo) :
    findContainingMount path infos =
      infos.reverse.find? (fun i => goHasPre path i.mountPoint) := by
  induction infos with
  | nil => rfl
  | cons i rest ih =>
    rw [List.reverse_cons, List.find?_append, findContainingMount, ih]
    cases rest.reverse.find? (fun i => goHasPre path i.mountPoint) with
    | none => cases hgp : goHasPre path i.mountPoint <;> simp [List.find?, hgp]
    | some x => simp

/-- C4: `isShared` selects, scanning from the last mountinfo entry
backward, the first entry whose mount point is a prefix of the queried
path; it returns true iff that entry's optional parameters contain a token
beginning with "shared:"; and when no entry's mount point is a prefix of
the path it returns an error, never false-without-error. -/
theorem isShared_spec (path : String) (infos : List mountInfo) :
    (findContainingMount path infos =
      infos.reverse.find? (fun i => goHasPre path i.mountPoint)) ∧
    (∀ info, findContainingMount path infos = some info →
      (isShared path infos = .ok true ↔
        ∃ opt ∈ info.optional, goHasPre opt "shared:" = true)) ∧
    ((∀ info ∈ infos, goHasPre path info.mountPoint = false) →
      isShared path infos = .error .noMountPoint) := by
  refine ⟨findContainingMount_eq_reverse_find path infos, ?_, ?_⟩
  · intro info hfind
    have hval : isShared path infos = .ok (hasSharedFlag info) := by
      rw [isShared, hfind]
    rw [hval]
    simp only [Except.ok.injEq, hasSharedFlag, List.any_eq_true]
  · intro hnone
    have hfind : findContainingMount path infos = none := by
      rw [findContainingMount_eq_reverse_find, List.find?_eq_none]
      intro x hx
      simp [hnone x (List.mem_reverse.mp hx)]
    rw [isShared, hfind]

/-- Witness for C4: for `/var/lib/kubelet` the backward scan picks the
later `/var/lib` entry, which carries `shared:42`, so `isShared` is true. -/
theorem isShared_spec_witness :
    isShared "/var/lib/kubelet"
      [⟨"/", "/", []⟩, ⟨"/", "/var/lib", ["rw", "shared:42"]⟩] = .ok true :=
  ((isShared_spec "/var/lib/kubelet"
      [⟨"/", "/", []⟩, ⟨"/", "/var/lib", ["rw", "shared:42"]⟩]).2.1
    ⟨"/", "/var/lib", ["rw", "shared:42"]⟩ (by decide)).mpr
    ⟨"shared:42", by decide, by decide⟩

/-! ## pkg/util/mount: MakeShared / doMakeShared -/

/-- The mount commands `doMakeShared` can issue (mount_linux.go):
`mount --bind <path> <path>` and `mount --make-rshared <path>`. -/
inductive ShareCmd
  | bindMount (source target : String)
  | makeRShared (path : String)
  deriving DecidableEq, Repr

/-- Errors of `doMakeShared`: the `isShared` check failed, the bind mount
failed, or the make-rshared command failed. -/
inductive MakeSharedErr
  | sharedCheckFailed
  | bindFailed
  | makeSharedFailed
  deriving DecidableEq, Repr

/-- `doMakeShared` (mount_linux.go), over the parsed mountinfo entries and
an environment telling whether each issued command succeeds.  Returns the
outcome together with the trace of issued mount commands: nothing when the
path is already shared, otherwise the bind mount followed (on success) by
the make-rshared command. -/
def doMakeShared (path : String) (infos : List mountInfo)
    (execOk : ShareCmd → Bool) : Except MakeSharedErr Unit × List ShareCmd :=
  match isShared path infos with
  | .error _ => (.error .sharedCheckFailed, [])
  | .ok true => (.ok (), [])
  | .ok false =>
    let c1 := ShareCmd.bindMount path path
    if execOk c1 then
      let c2 := ShareCmd.makeRShared path
      if execOk c2 then (.ok (), [c1, c2])
      else (.error .makeSharedFailed, [c1, c2])
    else (.error .bindFailed, [c1])

/-- Modelled from the spec: the effect of the issued commands on the
kernel's mountinfo table, which is not part of this repository.  A bind
mount of a directory onto itself appends a new mountinfo entry for that
directory at the end of the table (newest mounts are listed last), and
marking a directory recursively shared adds a `shared:` peer-group tag to
the optional parameters of every entry mounted at that directory. -/
def applyShareCmd (infos : List mountInfo) : ShareCmd → List mountInfo
  | .bindMount _ target => infos ++ [⟨target, target, []⟩]
  | .makeRShared p =>
    infos.map (fun i =>
      if i.mountPoint = p then { i with optional := i.optional ++ ["shared:1"] } else i)

/-- Modelled from the spec: apply a whole command trace in order. -/
def applyShareCmds (infos : List mountInfo) (cmds : List ShareCmd) : List mountInfo :=
  cmds.foldl applyShareCmd infos

theorem findContainingMount_append_self (path : String) (l : List mountInfo)
    (x : mountInfo) (hx : goHasPre path x.mountPoint = true) :
    findContainingMount path (l ++ [x]) = some x := by
  induction l with
  | nil => simp [findContainingMount, hx]
  | cons a l ih => rw [List.cons_append, findContainingMount, ih]

theorem goHasPre_self (s : String) : goHasPre s s = true := by
  rw [goHasPre]
  induction s.data with
  | nil => rfl
  | cons c l ih => simp [List.isPrefixOf, ih]

/-- C5: `doMakeShared` is idempotent.  When the path is already detected
as shared it issues no mount commands and succeeds; when it is not yet
shared (and the commands succeed) it issues exactly one bind mount of the
path onto itself followed by one make-rshared, and a second call on the
resulting mount table issues no further commands. -/
theorem doMakeShared_idempotent (path : String) (infos : List mountInfo)
    (execOk : ShareCmd → Bool) (hexec : ∀ c, execOk c = true) :
    (isShared path infos = .ok true →
      doMakeShared path infos execOk = (.ok (), [])) ∧
    (isShared path infos = .ok false →
      doMakeShared path infos execOk =
        (.ok (), [ShareCmd.bindMount path path, ShareCmd.makeRShared path]) ∧
      doMakeShared path
        (applyShareCmds infos
          [ShareCmd.bindMount path path, ShareCmd.makeRShared path]) execOk =
        (.ok (), [])) := by
  constructor
  · intro hsh
    rw [doMakeShared, hsh]
  · intro hsh
    have htrace : doMakeShared path infos execOk =
        (.ok (), [ShareCmd.bindMount path path, ShareCmd.makeRShared path]) := by
      rw [doMakeShared, hsh]
      simp [hexec]
    refine ⟨htrace, ?_⟩
    have hshared2 : isShared path
        (applyShareCmds infos
          [ShareCmd.bindMount path path, ShareCmd.makeRShared path]) = .ok true := by
      have happly : applyShareCmds infos
          [ShareCmd.bindMount path path, ShareCmd.makeRShared path] =
          (infos.map (fun i =>
            if i.mountPoint = path then
              { i with optional := i.optional ++ ["shared:1"] } else i)) ++
          [⟨path, path, ["shared:1"]⟩] := by
        simp [applyShareCmds, applyShareCmd]
      have hflag : hasSharedFlag ⟨path, path, ["shared:1"]⟩ = true := by
        simp [hasSharedFlag, goHasPre]
      rw [happly, isShared,
        findContainingMount_append_self path _ _ (goHasPre_self path)]
      show Except.ok (hasSharedFlag ⟨path, path, ["shared:1"]⟩) = .ok true
      rw [hflag]
    rw [doMakeShared, hshared2]

/-- Witness for C5: for a mount table holding only an unshared root mount,
making `/var/lib/kubelet` shared issues exactly the bind mount and the
make-rshared command, and a second call on the resulting table is a no-op. -/
theorem doMakeShared_idempotent_witness :
    doMakeShared "/var/lib/kubelet" [⟨"/", "/", []⟩] (fun _ => true) =
      (.ok (), [ShareCmd.bindMount "/var/lib/kubelet" "/var/lib/kubelet",
                ShareCmd.makeRShared "/var/lib/kubelet"]) ∧
    doMakeShared "/var/lib/kubelet"
      (applyShareCmds [⟨"/", "/", []⟩]
        [ShareCmd.bindMount "/var/lib/kubelet" "/var/lib/kubelet",
         ShareCmd.makeRShared "/var/lib/kubelet"]) (fun _ => true) =
      (.ok (), []) :=
  (doMakeShared_idempotent "/var/lib/kubelet" [⟨"/", "/", []⟩]
    (fun _ => true) (fun _ => rfl)).2 rfl

/-! ## pkg/util/mount: SafeFormatAndMount.formatAndMount / getDiskFormat -/

/-- fsck exit status meaning "found errors and corrected them". -/
def fsckErrorsCorrected : Nat := 1

/-- fsck exit status meaning "found errors but could not correct them". -/
def fsckErrorsUncorrected : Nat := 4

/-- The result of running `fsck -a <source>` through the Exec interface:
success, the executable-not-found error, an exit error with an exit
status, or some other failure. -/
inductive FsckResult
  | success
  | notFound
  | exitStatus (n : Nat)
  | otherFailure
  deriving DecidableEq, Repr

/-- The log messages of the fsck classification switch in `formatAndMount`
(mount_linux.go).  Only the messages of that switch are modelled; verbose
debug traces elsewhere in the function are not observable here. -/
inductive FmtLog
  | fsckNotFoundWarning
  | fsckCorrectedInfo
  | fsckOtherErrorInfo
  deriving DecidableEq, Repr

/-- Errors `formatAndMount` / `getDiskFormat` can return.  `conflict`
carries the caller's requested filesystem and the existing one, as the
"failed to mount the volume as %q, it already contains %s" message does. -/
inductive FmtErr
  | fsckUncorrected
  | getDiskFormatFailed
  | mkfsFailed
  | mountFailed
  | conflict (requested existing : String)
  deriving DecidableEq, Repr

/-- The external commands `formatAndMount` can run. -/
inductive FmtCmd
  | fsckCmd (args : List String)
  | mountCmd (source target fstype : String) (options : List String)
  | lsblkCmd (disk : String)
  | mkfsCmd (fstype : String) (args : List String)
  deriving DecidableEq, Repr

/-- Go's `strings.Split` by a single separator character, at the character
level: splitting always yields at least one (possibly empty) chunk. -/
def splitChar (sep : Char) : List Char → List (List Char)
  | [] => [[]]
  | c :: cs =>
    if c = sep then [] :: splitChar sep cs
    else
      match splitChar sep cs with
      | [] => [[c]]
      | t :: ts => (c :: t) :: ts

/-- Go's `strings.TrimSuffix(output, "\n")`: drop one trailing newline. -/
def trimNewline (l : List Char) : List Char :=
  match l.getLast? with
  | some c => if c = '\n' then l.dropLast else l
  | none => l

/-- `getDiskFormat` (mount_linux.go) applied to the result of running
`lsblk -n -o FSTYPE <disk>` — `none` when lsblk itself failed.  The first
output line is the filesystem type; an empty single line means
unformatted; an empty first line with dependent devices means partitions. -/
def getDiskFormat (raw : Option String) : Except FmtErr String :=
  match raw with
  | none => .error .getDiskFormatFailed
  | some output =>
    match splitChar '\n' (trimNewline output.data) with
    | [] => .ok ""
    | l0 :: rest =>
      if l0 ≠ [] then .ok (String.mk l0)
      else if rest = [] then .ok ""
      else .ok "unknown data, probably partitions"

/-- Whether the fsck result makes `formatAndMount` return early: only the
"errors found but not corrected" exit status does. -/
def fsckFatal : FsckResult → Bool
  | .exitStatus n => n = fsckErrorsUncorrected
  | _ => false

/-- The log messages the fsck classification switch emits: a warning when
fsck is missing, an info message for corrected errors, an info message for
exit statuses above `fsckErrorsUncorrected` — and nothing in the other
cases (in particular exit statuses 2 and 3 fall through the Go switch). -/
def fsckLogs : FsckResult → List FmtLog
  | .notFound => [.fsckNotFoundWarning]
  | .exitStatus n =>
    if n = fsckErrorsCorrected then [.fsckCorrectedInfo]
    else if n > fsckErrorsUncorrected then [.fsckOtherErrorInfo]
    else []
  | _ => []

/-- The environment of one `formatAndMount` call: the fsck result, whether
each of the (at most two) mount attempts succeeds, the lsblk output and
whether mkfs succeeds. -/
structure FmtEnv where
  fsck : FsckResult
  mount1Ok : Bool
  lsblk : Option String
  mkfsOk : Bool
  mount2Ok : Bool

/-- `SafeFormatAndMount.formatAndMount` (mount_linux.go): append
"defaults" to the options, run fsck and classify its result, attempt the
mount, and on failure probe the disk format — formatting an unformatted
disk (ext4 by default) and retrying the mount once, or failing with the
conflict error when the disk already holds a different filesystem than the
non-empty requested one.  Returns the outcome, the commands run, and the
fsck log messages. -/
def formatAndMount (env : FmtEnv) (source target fstype : String)
    (options : List String) : Except FmtErr Unit × List FmtCmd × List FmtLog :=
  let opts := options ++ ["defaults"]
  let logs := fsckLogs env.fsck
  if fsckFatal env.fsck then
    (.error .fsckUncorrected, [.fsckCmd ["-a", source]], logs)
  else if env.mount1Ok then
    (.ok (), [.fsckCmd ["-a", source], .mountCmd source target fstype opts], logs)
  else
    match getDiskFormat env.lsblk with
    | .error e =>
      (.error e,
       [.fsckCmd ["-a", source], .mountCmd source target fstype opts,
        .lsblkCmd source], logs)
    | .ok existing =>
      if existing = "" then
        let fstype2 := if fstype = "" then "ext4" else fstype
        let args := if fstype2 = "ext4" ∨ fstype2 = "ext3" then ["-F", source] else [source]
        if env.mkfsOk then
          ((if env.mount2Ok then .ok () else .error .mountFailed),
           [.fsckCmd ["-a", source], .mountCmd source target fstype opts,
            .lsblkCmd source, .mkfsCmd fstype2 args,
            .mountCmd source target fstype2 opts], logs)
        else
          (.error .mkfsFailed,
           [.fsckCmd ["-a", source], .mountCmd source target fstype opts,
            .lsblkCmd source, .mkfsCmd fstype2 args], logs)
      else if fstype = "" ∨ fstype = existing then
        (.error .mountFailed,
         [.fsckCmd ["-a", source], .mountCmd source target fstype opts,
          .lsblkCmd source], logs)
      else
        (.error (.conflict fstype existing),
         [.fsckCmd ["-a", source], .mountCmd source target fstype opts,
          .lsblkCmd source], logs)

theorem formatAndMount_logs (env : FmtEnv) (source target fstype : String)
    (options : List String) :
    (formatAndMount env source target fstype options).2.2 = fsckLogs env.fsck := by
  by_cases h : fsckFatal env.fsck = true
  · simp [formatAndMount, h]
  · rw [Bool.not_eq_true] at h
    cases hm : env.mount1Ok
    · cases hd : getDiskFormat env.lsblk with
      | error e => simp [formatAndMount, h, hm, hd]
      | ok existing =>
        by_cases he : existing = ""
        · cases hk : env.mkfsOk
          · simp [formatAndMount, h, hm, hd, he, hk]
          · simp [formatAndMount, h, hm, hd, he, hk]
        · by_cases hf : fstype = "" ∨ fstype = existing
          · simp [formatAndMount, h, hm, hd, he, hf]
          · simp [formatAndMount, h, hm, hd, he, hf]
    · simp [formatAndMount, h, hm]

theorem formatAndMount_attempts_mount (env : FmtEnv) (source target fstype : String)
    (options : List String) (h : fsckFatal env.fsck = false) :
    FmtCmd.mountCmd source target fstype (options ++ ["defaults"]) ∈
      (formatAndMount env source target fstype options).2.1 := by
  cases hm : env.mount1Ok
  · cases hd : getDiskFormat env.lsblk with
    | error e => simp [formatAndMount, h, hm, hd]
    | ok existing =>
      by_cases he : existing = ""
      · cases hk : env.mkfsOk
        · simp [formatAndMount, h, hm, hd, he, hk]
        · simp [formatAndMount, h, hm, hd, he, hk]
      · by_cases hf : fstype = "" ∨ fstype = existing
        · simp [formatAndMount, h, hm, hd, he, hf]
        · simp [formatAndMount, h, hm, hd, he, hf]
  · simp [formatAndMount, h, hm]

/-- C6: when the first mount attempt fails and fsck was not fatal — if the
probed filesystem is empty the device is formatted (as the requested type,
ext4 when none was given) and the mount is retried exactly once; if the
device already holds a non-empty filesystem different from the non-empty
requested one, the result is the conflict error naming both filesystems
and no format command is ever run. -/
theorem formatAndMount_unformatted_or_conflict (env : FmtEnv)
    (source target fstype : String) (options : List String)
    (hfsck : fsckFatal env.fsck = false) (hm1 : env.mount1Ok = false) :
    (getDiskFormat env.lsblk = .ok "" → env.mkfsOk = true →
      (formatAndMount env source target fstype options).2.1 =
        [.fsckCmd ["-a", source],
         .mountCmd source target fstype (options ++ ["defaults"]),
         .lsblkCmd source,
         .mkfsCmd (if fstype = "" then "ext4" else fstype)
           (if (if fstype = "" then "ext4" else fstype) = "ext4" ∨
               (if fstype = "" then "ext4" else fstype) = "ext3"
            then ["-F", source] else [source]),
         .mountCmd source target (if fstype = "" then "ext4" else fstype)
           (options ++ ["defaults"])]) ∧
    (∀ existing, getDiskFormat env.lsblk = .ok existing → existing ≠ "" →
      fstype ≠ "" → fstype ≠ existing →
      (formatAndMount env source target fstype options).1 =
        .error (.conflict fstype existing) ∧
      ∀ ft args, FmtCmd.mkfsCmd ft args ∉
        (formatAndMount env source target fstype options).2.1) := by
  constructor
  · intro hdisk hmkfs
    simp [formatAndMount, hfsck, hm1, hdisk, hmkfs]
  · intro existing hdisk hne hfs hneq
    constructor
    · simp [formatAndMount, hfsck, hm1, hdisk, hne, hfs, hneq]
    · intro ft args
      simp [formatAndMount, hfsck, hm1, hdisk, hne, hfs, hneq]

/-- Witness for C6: an unformatted disk with empty requested type is
formatted as ext4 and the mount retried once; a disk holding ext4 mounted
as xfs yields the conflict error. -/
theorem formatAndMount_unformatted_or_conflict_witness :
    (formatAndMount ⟨.success, false, some "", true, true⟩ "/dev/sdb" "/mnt" "" []).2.1 =
      [.fsckCmd ["-a", "/dev/sdb"],
       .mountCmd "/dev/sdb" "/mnt" "" ["defaults"],
       .lsblkCmd "/dev/sdb",
       .mkfsCmd "ext4" ["-F", "/dev/sdb"],
       .mountCmd "/dev/sdb" "/mnt" "ext4" ["defaults"]] ∧
    (formatAndMount ⟨.success, false, some "ext4\n", true, true⟩ "/dev/sdb" "/mnt" "xfs" []).1 =
      .error (.conflict "xfs" "ext4") := by
  constructor
  · have h := (formatAndMount_unformatted_or_conflict
      ⟨.success, false, some "", true, true⟩ "/dev/sdb" "/mnt" "" [] rfl rfl).1 rfl rfl
    simpa using h
  · exact ((formatAndMount_unformatted_or_conflict
      ⟨.success, false, some "ext4\n", true, true⟩ "/dev/sdb" "/mnt" "xfs" [] rfl rfl).2
      "ext4" rfl (by decide) (by decide) (by decide)).1

/-- C7 (amended): fsck exit status 1 (errors corrected) is logged and the
mount is still attempted; exit status 4 (uncorrected) aborts before any
mount; a missing fsck executable is logged as a warning and skipped; exit
statuses above 4 are logged and non-fatal; every other exit status —
including the non-zero statuses 2 and 3 — is non-fatal but produces no log
message at all. -/
theorem formatAndMount_fsck_classification (env : FmtEnv)
    (source target fstype : String) (options : List String) :
    (env.fsck = .exitStatus fsckErrorsCorrected →
      (formatAndMount env source target fstype options).2.2 = [.fsckCorrectedInfo] ∧
      FmtCmd.mountCmd source target fstype (options ++ ["defaults"]) ∈
        (formatAndMount env source target fstype options).2.1) ∧
    (env.fsck = .exitStatus fsckErrorsUncorrected →
      (formatAndMount env source target fstype options).1 = .error .fsckUncorrected ∧
      ∀ s t ft o, FmtCmd.mountCmd s t ft o ∉
        (formatAndMount env source target fstype options).2.1) ∧
    (env.fsck = .notFound →
      (formatAndMount env source target fstype options).2.2 = [.fsckNotFoundWarning] ∧
      FmtCmd.mountCmd source target fstype (options ++ ["defaults"]) ∈
        (formatAndMount env source target fstype options).2.1) ∧
    (∀ n, env.fsck = .exitStatus n → n > fsckErrorsUncorrected →
      (formatAndMount env source target fstype options).2.2 = [.fsckOtherErrorInfo] ∧
      FmtCmd.mountCmd source target fstype (options ++ ["defaults"]) ∈
        (formatAndMount env source target fstype options).2.1) ∧
    (∀ n, env.fsck = .exitStatus n → n ≠ fsckErrorsCorrected →
      n ≠ fsckErrorsUncorrected → ¬n > fsckErrorsUncorrected →
      (formatAndMount env source target fstype options).2.2 = [] ∧
      FmtCmd.mountCmd source target fstype (options ++ ["defaults"]) ∈
        (formatAndMount env source target fstype options).2.1) := by
  refine ⟨?_, ?_, ?_, ?_, ?_⟩
  · intro hf
    have hfatal : fsckFatal env.fsck = false := by
      simp [fsckFatal, hf, fsckErrorsCorrected, fsckErrorsUncorrected]
    exact ⟨by rw [formatAndMount_logs, hf]; rfl,
      formatAndMount_attempts_mount env source target fstype options hfatal⟩
  · intro hf
    have hfatal : fsckFatal env.fsck = true := by
      simp [fsckFatal, hf]
    constructor
    · simp [formatAndMount, hfatal]
    · intro s t ft o
      simp [formatAndMount, hfatal]
  · intro hf
    have hfatal : fsckFatal env.fsck = false := by simp [fsckFatal, hf]
    exact ⟨by rw [formatAndMount_logs, hf]; rfl,
      formatAndMount_attempts_mount env source target fstype options hfatal⟩
  · intro n hf hgt
    have hgt4 : 4 < n := by simpa [fsckErrorsUncorrected] using hgt
    have hfatal : fsckFatal env.fsck = false := by
      simp [fsckFatal, hf, fsckErrorsUncorrected]
      omega
    refine ⟨?_, formatAndMount_attempts_mount env source target fstype options hfatal⟩
    rw [formatAndMount_logs, hf]
    have h1 : ¬n = fsckErrorsCorrected := by
      simp [fsckErrorsCorrected, fsckErrorsUncorrected] at hgt ⊢
      omega
    simp [fsckLogs, h1, hgt]
  · intro n hf h1 h4 hgt
    have hfatal : fsckFatal env.fsck = false := by
      simp [fsckFatal, hf, fsckErrorsUncorrected]
      simpa [fsckErrorsUncorrected] using h4
    refine ⟨?_, formatAndMount_attempts_mount env source target fstype options hfatal⟩
    rw [formatAndMount_logs, hf]
    simp [fsckLogs, h1, hgt]

/-- Witness for C7's amended theorem: with fsck exiting 2 the function
emits no log message and still attempts (and completes) the mount. -/
theorem formatAndMount_fsck_classification_witness :
    (formatAndMount ⟨.exitStatus 2, true, none, true, true⟩
      "/dev/sdc" "/mnt" "ext4" []).2.2 = [] ∧
    FmtCmd.mountCmd "/dev/sdc" "/mnt" "ext4" ["defaults"] ∈
      (formatAndMount ⟨.exitStatus 2, true, none, true, true⟩
        "/dev/sdc" "/mnt" "ext4" []).2.1 := by
  have h := (formatAndMount_fsck_classification
    ⟨.exitStatus 2, true, none, true, true⟩ "/dev/sdc" "/mnt" "ext4" []).2.2.2.2
    2 rfl (by decide) (by decide) (by decide)
  simpa using h

/-- Counterexample to C7 as stated: the claim says every non-zero exit
status other than 1 and 4 is logged, but with fsck exiting 2 the Go switch
matches no case — nothing is logged, the result is success and the mount
runs. -/
theorem formatAndMount_fsck_exit_two_counterexample :
    (formatAndMount ⟨.exitStatus 2, true, none, true, true⟩
      "/dev/sdd" "/mnt" "ext4" []).2.2 = [] ∧
    (formatAndMount ⟨.exitStatus 2, true, none, true, true⟩
      "/dev/sdd" "/mnt" "ext4" []).1 = .ok () ∧
    FmtCmd.mountCmd "/dev/sdd" "/mnt" "ext4" ["defaults"] ∈
      (formatAndMount ⟨.exitStatus 2, true, none, true, true⟩
        "/dev/sdd" "/mnt" "ext4" []).2.1 := by
  refine ⟨rfl, rfl, ?_⟩
  simp [formatAndMount, fsckFatal, fsckErrorsUncorrected]

/-- C10 (implicit): every underlying mount invocation of `formatAndMount`
— the first attempt and any retry after formatting — carries the caller's
options with "defaults" appended, which is never exactly the caller's
option list. -/
theorem formatAndMount_appends_defaults (env : FmtEnv)
    (source target fstype : String) (options : List String) :
    (∀ s t ft o, FmtCmd.mountCmd s t ft o ∈
        (formatAndMount env source target fstype options).2.1 →
      o = options ++ ["defaults"]) ∧
    options ++ ["defaults"] ≠ options := by
  constructor
  · intro s t ft o hmem
    by_cases h : fsckFatal env.fsck = true
    · simp [formatAndMount, h] at hmem
    · rw [Bool.not_eq_true] at h
      cases hm : env.mount1Ok
      · cases hd : getDiskFormat env.lsblk with
        | error e =>
          simp [formatAndMount, h, hm, hd] at hmem
          exact hmem.2.2.2
        | ok existing =>
          by_cases he : existing = ""
          · cases hk : env.mkfsOk
            · simp [formatAndMount, h, hm, hd, he, hk] at hmem
              exact hmem.2.2.2
            · simp [formatAndMount, h, hm, hd, he, hk] at hmem
              rcases hmem with hmem | hmem <;> exact hmem.2.2.2
          · by_cases hf : fstype = "" ∨ fstype = existing
            · simp [formatAndMount, h, hm, hd, he, hf] at hmem
              exact hmem.2.2.2
            · simp [formatAndMount, h, hm, hd, he, hf] at hmem
              exact hmem.2.2.2
      · simp [formatAndMount, h, hm] at hmem
        exact hmem.2.2.2
  · intro hcon
    have hlen := congrArg List.length hcon
    simp at hlen

/-- Witness for C10 at a concrete trace: both mount invocations of a
format-then-retry run carry `["ro", "defaults"]`, not `["ro"]`. -/
theorem formatAndMount_appends_defaults_witness :
    FmtCmd.mountCmd "/dev/sde" "/mnt" "ext4" ["ro"] ∉
      (formatAndMount ⟨.success, false, some "", true, true⟩
        "/dev/sde" "/mnt" "ext4" ["ro"]).2.1 := by
  intro hmem
  have h := (formatAndMount_appends_defaults
    ⟨.success, false, some "", true, true⟩ "/dev/sde" "/mnt" "ext4" ["ro"]).1
    "/dev/sde" "/mnt" "ext4" ["ro"] hmem
  exact absurd h (by decide)

end KubeMount

namespace KubeVolume

/-! ## pkg/volume/mount_pod.go: the mount pod manager -/

/-- v1.PodPhase; the manager only distinguishes Running from the rest. -/
inductive PodPhase
  | pending
  | running
  | succeeded
  | failed
  | unknown
  deriving DecidableEq, Repr

/-- The fields of v1.Pod the mount-pod manager reads; `ns` is the pod's
Namespace. -/
structure Pod where
  ns : String
  name : String
  uid : String
  phase : PodPhase
  labels : List (String × String)
  deriving DecidableEq, Repr

/-- Go's `pod.Labels[key]`: map lookup returning "" for an absent key. -/
def lookupLabel (labels : List (String × String)) (key : String) : String :=
  match labels.find? (fun kv => kv.1 == key) with
  | some kv => kv.2
  | none => ""

/-- The pods cache of `mountPodManager`: plugin name → (pod UID → pod),
both maps as association lists. -/
abbrev PodsMap := List (String × List (String × Pod))

/-- State of a `mountPodManager`: the watched namespace, the plugin names
`pluginMgr.GetPluginNames()` returns, and the pods cache. -/
structure MgrState where
  ns : String
  pluginNames : List String
  pods : PodsMap

/-- Go's `m.pods[pluginName]` followed by the nil check: `none` when the
plugin has no map yet. -/
def lookupPlugin : PodsMap → String → Option (List (String × Pod))
  | [], _ => none
  | e :: rest, pluginName =>
    if e.1 = pluginName then some e.2 else lookupPlugin rest pluginName

/-- Go's `pods[uid]` on one plugin's map: the pod stored under the UID. -/
def lookupUid : List (String × Pod) → String → Option Pod
  | [], _ => none
  | up :: rest, uid => if up.1 = uid then some up.2 else lookupUid rest uid

/-- Membership of a UID in one plugin's map of the cache. -/
def lookupPodIn (ps : PodsMap) (pluginName uid : String) : Option Pod :=
  match lookupPlugin ps pluginName with
  | none => none
  | some m => lookupUid m uid

/-- Go's `delete(pods, uid)` on one plugin's association map. -/
def deleteUid : List (String × Pod) → String → List (String × Pod)
  | [], _ => []
  | up :: rest, uid =>
    if up.1 = uid then deleteUid rest uid else up :: deleteUid rest uid

/-- `deletePodLocked` (mount_pod.go): remove the pod's UID from every
plugin's map. -/
def deletePodLocked (st : MgrState) (pod : Pod) : MgrState :=
  { st with pods := st.pods.map (fun e => (e.1, deleteUid e.2 pod.uid)) }

/-- `pods[pod.UID] = pod` on one plugin's association map: overwrite the
existing entry for the UID, or add one. -/
def insertUid (m : List (String × Pod)) (pod : Pod) : List (String × Pod) :=
  match m with
  | [] => [(pod.uid, pod)]
  | (u, p) :: rest =>
    if u = pod.uid then (u, pod) :: rest else (u, p) :: insertUid rest pod

/-- `m.pods[pluginName] = pods` after inserting the pod: update the
plugin's map in place, creating it when the plugin had none. -/
def insertPodFor (ps : PodsMap) (pluginName : String) (pod : Pod) : PodsMap :=
  match ps with
  | [] => [(pluginName, [(pod.uid, pod)])]
  | (k, m) :: rest =>
    if k = pluginName then (k, insertUid m pod) :: rest
    else (k, m) :: insertPodFor rest pluginName pod

/-- `AddPod` (mount_pod.go): ignore pods from other namespaces; remove the
old version of the pod from the cache; stop unless the pod is Running;
then register it under every registered plugin name whose
`mount.<pluginName>` label is "true". -/
def addPod (st : MgrState) (pod : Pod) : MgrState :=
  if pod.ns ≠ st.ns then st
  else
    let st1 := deletePodLocked st pod
    if pod.phase ≠ PodPhase.running then st1
    else
      { st1 with pods := st.pluginNames.foldl (fun ps pluginName =>
          if lookupLabel pod.labels ("mount." ++ pluginName) = "true" then
            insertPodFor ps pluginName pod
          else ps) st1.pods }

/-- `GetPod` (mount_pod.go): nil for an unknown plugin, otherwise "a
random pod" of its map — the Go map iteration order is arbitrary, modelled
as the first entry — or nil when the map is empty. -/
def getPod (st : MgrState) (pluginName : String) : Option Pod :=
  match lookupPlugin st.pods pluginName with
  | none => none
  | some m => m.head?.map (fun up => up.2)

theorem lookupUid_deleteUid (m : List (String × Pod)) (uid : String) :
    lookupUid (deleteUid m uid) uid = none := by
  induction m with
  | nil => rfl
  | cons up rest ih =>
    by_cases hu : up.1 = uid
    · simp [deleteUid, hu, ih]
    · simp [deleteUid, hu, lookupUid, ih]

theorem lookupPodIn_delete (st : MgrState) (pod : Pod) (pluginName : String) :
    lookupPodIn (deletePodLocked st pod).pods pluginName pod.uid = none := by
  rw [deletePodLocked]
  show lookupPodIn (st.pods.map (fun e => (e.1, deleteUid e.2 pod.uid)))
    pluginName pod.uid = none
  induction st.pods with
  | nil => rfl
  | cons e rest ih =>
    obtain ⟨k, m⟩ := e
    by_cases hk : k = pluginName
    · simp [lookupPodIn, lookupPlugin, hk, lookupUid_deleteUid]
    · simpa [lookupPodIn, lookupPlugin, hk] using ih

theorem lookupUid_insertUid (m : List (String × Pod)) (pod : Pod) :
    lookupUid (insertUid m pod) pod.uid = some pod := by
  induction m with
  | nil => simp [insertUid, lookupUid]
  | cons up rest ih =>
    obtain ⟨u, p⟩ := up
    by_cases hu : u = pod.uid
    · simp [insertUid, hu, lookupUid]
    · simp [insertUid, hu, lookupUid, ih]

theorem lookupPodIn_insert_same (ps : PodsMap) (pluginName : String) (pod : Pod) :
    lookupPodIn (insertPodFor ps pluginName pod) pluginName pod.uid = some pod := by
  induction ps with
  | nil => simp [insertPodFor, lookupPodIn, lookupPlugin, lookupUid]
  | cons e rest ih =>
    obtain ⟨k, m⟩ := e
    by_cases hk : k = pluginName
    · simp [insertPodFor, hk, lookupPodIn, lookupPlugin, lookupUid_insertUid]
    · simpa [insertPodFor, hk, lookupPodIn, lookupPlugin] using ih

theorem lookupPodIn_insert_other (ps : PodsMap) (pluginName other : String)
    (pod : Pod) (uid : String) (hne : other ≠ pluginName) :
    lookupPodIn (insertPodFor ps pluginName pod) other uid =
      lookupPodIn ps other uid := by
  have hne' : pluginName ≠ other := fun hc => hne hc.symm
  induction ps with
  | nil => simp [insertPodFor, lookupPodIn, lookupPlugin, hne']
  | cons e rest ih =>
    obtain ⟨k, m⟩ := e
    by_cases hk : k = pluginName
    · have hko : ¬k = other := by rw [hk]; exact hne'
      simp [insertPodFor, hk, lookupPodIn, lookupPlugin, hko, hne']
    · by_cases hko : k = other
      · simp [insertPodFor, hk, lookupPodIn, lookupPlugin, hko, hne]
      · simpa [insertPodFor, hk, lookupPodIn, lookupPlugin, hko] using ih

theorem foldl_insert_lookup (pod : Pod) (names : List String) (ps : PodsMap)
    (plugin : String) :
    lookupPodIn (names.foldl (fun ps pluginName =>
        if lookupLabel pod.labels ("mount." ++ pluginName) = "true" then
          insertPodFor ps pluginName pod
        else ps) ps) plugin pod.uid =
      if plugin ∈ names ∧ lookupLabel pod.labels ("mount." ++ plugin) = "true" then
        some pod
      else lookupPodIn ps plugin pod.uid := by
  induction names generalizing ps with
  | nil => simp
  | cons n rest ih =>
    rw [List.foldl_cons, ih]
    by_cases hmem : plugin ∈ rest ∧ lookupLabel pod.labels ("mount." ++ plugin) = "true"
    · rw [if_pos hmem, if_pos ⟨List.mem_cons_of_mem n hmem.1, hmem.2⟩]
    · rw [if_neg hmem]
      by_cases hpn : plugin = n
      · subst hpn
        by_cases hlab : lookupLabel pod.labels ("mount." ++ plugin) = "true"
        · rw [if_pos hlab, if_pos ⟨List.mem_cons_self plugin rest, hlab⟩]
          exact lookupPodIn_insert_same ps plugin pod
        · rw [if_neg hlab, if_neg (fun hc => hlab hc.2)]
      · by_cases hlab : lookupLabel pod.labels ("mount." ++ n) = "true"
        · rw [if_pos hlab, lookupPodIn_insert_other ps n plugin pod pod.uid hpn]
          rw [if_neg (fun hc =>
            hmem ⟨(List.mem_cons.mp hc.1).resolve_left hpn, hc.2⟩)]
        · rw [if_neg hlab, if_neg (fun hc =>
            hmem ⟨(List.mem_cons.mp hc.1).resolve_left hpn, hc.2⟩)]

theorem lookupPlugin_map_delete (ps : PodsMap) (uid k : String) :
    lookupPlugin (ps.map (fun e => (e.1, deleteUid e.2 uid))) k =
      (lookupPlugin ps k).map (fun m => deleteUid m uid) := by
  induction ps with
  | nil => rfl
  | cons e rest ih =>
    obtain ⟨kk, m⟩ := e
    by_cases hk : kk = k
    · simp [lookupPlugin, hk]
    · simpa [lookupPlugin, hk] using ih

theorem mem_deleteUid (m : List (String × Pod)) (uid : String)
    (up : String × Pod) (h : up ∈ deleteUid m uid) : up ∈ m ∧ up.1 ≠ uid := by
  induction m with
  | nil => simp [deleteUid] at h
  | cons v rest ih =>
    by_cases hv : v.1 = uid
    · rw [deleteUid, if_pos hv] at h
      exact ⟨List.mem_cons_of_mem v (ih h).1, (ih h).2⟩
    · rw [deleteUid, if_neg hv] at h
      rcases List.mem_cons.mp h with hup | hup
      · exact ⟨by rw [hup]; exact List.mem_cons_self v rest, by rw [hup]; exact hv⟩
      · exact ⟨List.mem_cons_of_mem v (ih hup).1, (ih hup).2⟩

theorem lookupPlugin_some_mem (ps : PodsMap) (k : String)
    (m : List (String × Pod)) (h : lookupPlugin ps k = some m) :
    ∃ kk, (kk, m) ∈ ps := by
  induction ps with
  | nil => cases h
  | cons e rest ih =>
    obtain ⟨kk, mm⟩ := e
    by_cases hk : kk = k
    · rw [lookupPlugin, if_pos hk] at h
      obtain rfl : mm = m := Option.some.inj h
      exact ⟨kk, List.mem_cons_self _ rest⟩
    · rw [lookupPlugin, if_neg hk] at h
      obtain ⟨kk2, hmem⟩ := ih h
      exact ⟨kk2, List.mem_cons_of_mem _ hmem⟩

/-- C9: for a pod in the watched namespace, `AddPod` first removes the
pod's UID from every plugin map and then registers it under exactly the
registered plugin names whose `mount.<pluginName>` label is "true" — and
only when the pod is Running.  Consequently a pod in phase Succeeded ends
up in no plugin map and `GetPod` cannot return a pod with its UID.  The
`hwf` hypothesis records the cache invariant that every map entry is keyed
by its pod's UID, which every insertion of the code maintains. -/
theorem addPod_spec (st : MgrState) (pod : Pod)
    (hns : pod.ns = st.ns)
    (hwf : ∀ e ∈ st.pods, ∀ up ∈ e.2, up.1 = up.2.uid) :
    (∀ pluginName,
      lookupPodIn (addPod st pod).pods pluginName pod.uid =
        if pod.phase = PodPhase.running ∧ pluginName ∈ st.pluginNames ∧
            lookupLabel pod.labels ("mount." ++ pluginName) = "true"
        then some pod else none) ∧
    (pod.phase = PodPhase.succeeded →
      ∀ pluginName q, getPod (addPod st pod) pluginName = some q →
        q.uid ≠ pod.uid) := by
  constructor
  · intro pluginName
    have hbase := lookupPodIn_delete st pod pluginName
    by_cases hrun : pod.phase = PodPhase.running
    · have hpods : (addPod st pod).pods =
          st.pluginNames.foldl (fun ps pluginName =>
            if lookupLabel pod.labels ("mount." ++ pluginName) = "true" then
              insertPodFor ps pluginName pod
            else ps) (deletePodLocked st pod).pods := by
        simp [addPod, hns, hrun]
      have hstep := foldl_insert_lookup pod st.pluginNames
        (deletePodLocked st pod).pods pluginName
      rw [hbase] at hstep
      rw [hpods, hstep]
      simp [hrun]
    · have hpods : (addPod st pod).pods = (deletePodLocked st pod).pods := by
        simp [addPod, hns, hrun]
      rw [hpods, hbase, if_neg (fun hc => hrun hc.1)]
  · intro hsucc pluginName q hget
    have hrun : ¬pod.phase = PodPhase.running := by rw [hsucc]; decide
    have hpods : (addPod st pod).pods = (deletePodLocked st pod).pods := by
      simp [addPod, hns, hrun]
    rw [getPod, hpods, deletePodLocked] at hget
    rw [lookupPlugin_map_delete] at hget
    cases hlp : lookupPlugin st.pods pluginName with
    | none => rw [hlp] at hget; cases hget
    | some m =>
      rw [hlp] at hget
      simp only [Option.map_some'] at hget
      cases hdel : deleteUid m pod.uid with
      | nil => rw [hdel] at hget; cases hget
      | cons up t =>
        rw [hdel] at hget
        simp only [List.head?_cons, Option.map_some'] at hget
        have hup : up ∈ deleteUid m pod.uid := by
          rw [hdel]; exact List.mem_cons_self up t
        obtain ⟨hmem, hneu⟩ := mem_deleteUid m pod.uid up hup
        obtain ⟨kk, hkm⟩ := lookupPlugin_some_mem st.pods pluginName m hlp
        have hkey : up.1 = up.2.uid := hwf (kk, m) hkm up hmem
        rw [← Option.some.inj hget, ← hkey]
        exact hneu

/-- The pod of the C9 scenario in its earlier Running state. -/
def demoRunningPod : Pod :=
  ⟨"kube-system", "mounter", "u1", PodPhase.running, [("mount.flex", "true")]⟩

/-- The same pod after it moved to phase Succeeded. -/
def demoSucceededPod : Pod :=
  ⟨"kube-system", "mounter", "u1", PodPhase.succeeded, [("mount.flex", "true")]⟩

/-- A manager state in which the pod is still registered for plugin
"flex" from its Running days. -/
def demoMgrState : MgrState :=
  ⟨"kube-system", ["flex"], [("flex", [("u1", demoRunningPod)])]⟩

/-- Witness for C9: adding the now-Succeeded pod removes it from the
"flex" mapping and `GetPod` no longer returns it. -/
theorem addPod_spec_witness :
    lookupPodIn (addPod demoMgrState demoSucceededPod).pods "flex" "u1" = none ∧
    getPod (addPod demoMgrState demoSucceededPod) "flex" ≠ some demoSucceededPod := by
  have h := addPod_spec demoMgrState demoSucceededPod rfl (by decide)
  constructor
  · have h1 := h.1 "flex"
    rw [show demoSucceededPod.uid = "u1" from rfl] at h1
    rw [h1]
    decide
  · intro hc
    exact (h.2 rfl "flex" demoSucceededPod hc) rfl

end KubeVolume

namespace KubeletHost

/-! ## kubelet volume host: GetVolumePluginSocketPath

`GetVolumePluginSocketPath(rootDir, pluginName)` replaces every "/" in the
plugin name by "~" and returns `path.Join(rootDir, "plugin-sockets", p)`.
Go's `path.Join` and `path.Clean` are standard-library environment code,
modelled here at the character level: `Clean` resolves `.` and `..`
components lexically with a stack, exactly as the lazybuf scanner does. -/

/-- Whether a path is rooted (starts with '/'). -/
def isRooted : List Char → Bool
  | c :: _ => c = '/'
  | [] => false

/-- One component step of Go's `path.Clean`: skip empty and `.` components;
on `..` pop the last stacked component when possible (a rooted path drops
an unmatched `..`, an unrooted path keeps it); push everything else. -/
def cleanStep (rooted : Bool) (st : List (List Char)) (c : List Char) :
    List (List Char) :=
  if c = [] ∨ c = ['.'] then st
  else if c = ['.', '.'] then
    if rooted then st.dropLast
    else if st ≠ [] ∧ st.getLast? ≠ some ['.', '.'] then st.dropLast
    else st ++ [['.', '.']]
  else st ++ [c]

/-- Reassemble cleaned components with '/' separators. -/
def joinChunks : List (List Char) → List Char
  | [] => []
  | [x] => x
  | x :: xs => x ++ '/' :: joinChunks xs

/-- Go's `path.Clean` on the characters of a path. -/
def cleanChars (l : List Char) : List Char :=
  if l = [] then ['.']
  else
    let rooted := isRooted l
    let st := (KubeMount.splitChar '/' l).foldl (cleanStep rooted) []
    let body := joinChunks st
    if rooted then (if body = [] then ['/'] else '/' :: body)
    else (if body = [] then ['.'] else body)

/-- Go's `path.Clean`. -/
def goPathClean (s : String) : String := String.mk (cleanChars s.data)

/-- The concatenation loop of Go's `path.Join`: join the elements with
'/', skipping leading empty elements. -/
def goJoinRawChars (elems : List (List Char)) : List Char :=
  elems.foldl (fun buf e =>
    if buf ≠ [] ∨ e ≠ [] then (if buf ≠ [] then buf ++ ['/'] else buf) ++ e
    else buf) []

/-- Go's `path.Join`: empty when every element is empty, otherwise the
cleaned concatenation. -/
def goPathJoin (elems : List String) : String :=
  if elems.all (fun e => e.data.isEmpty) then ""
  else String.mk (cleanChars (goJoinRawChars (elems.map String.data)))

/-- `strings.Replace(pluginName, "/", "~", -1)`: the pattern is a single
character, so replacing all occurrences is a per-character map. -/
def escapePluginName (pluginName : String) : String :=
  String.mk (pluginName.data.map (fun c => if c = '/' then '~' else c))

/-- `GetVolumePluginSocketPath` (kubelet volume host): sanitize the plugin
name so it "does not escape directory" and join it under
`<rootDir>/plugin-sockets`. -/
def GetVolumePluginSocketPath (rootDir pluginName : String) : String :=
  goPathJoin [rootDir, "plugin-sockets", escapePluginName pluginName]

theorem splitChar_ne_nil (sep : Char) (l : List Char) :
    KubeMount.splitChar sep l ≠ [] := by
  induction l with
  | nil => simp [KubeMount.splitChar]
  | cons c cs ih =>
    rw [KubeMount.splitChar]
    by_cases hc : c = sep
    · simp [hc]
    · rw [if_neg hc]
      cases hs : KubeMount.splitChar sep cs with
      | nil => exact absurd hs ih
      | cons t ts => simp

theorem splitChar_append (sep : Char) (xs ys : List Char) :
    KubeMount.splitChar sep (xs ++ sep :: ys) =
      KubeMount.splitChar sep xs ++ KubeMount.splitChar sep ys := by
  induction xs with
  | nil => simp [KubeMount.splitChar]
  | cons c cs ih =>
    by_cases hc : c = sep
    · simp [hc, KubeMount.splitChar, ih]
    · cases hs : KubeMount.splitChar sep cs with
      | nil => exact absurd hs (splitChar_ne_nil sep cs)
      | cons t ts =>
        have lhs : KubeMount.splitChar sep ((c :: cs) ++ sep :: ys) =
            (c :: t) :: (ts ++ KubeMount.splitChar sep ys) := by
          rw [List.cons_append, KubeMount.splitChar, if_neg hc, ih, hs]
          rfl
        have rhs : KubeMount.splitChar sep (c :: cs) ++ KubeMount.splitChar sep ys =
            (c :: t) :: (ts ++ KubeMount.splitChar sep ys) := by
          rw [KubeMount.splitChar, if_neg hc, hs]
          rfl
        rw [lhs, rhs]

theorem splitChar_no_sep (sep : Char) (l : List Char) (h : sep ∉ l) :
    KubeMount.splitChar sep l = [l] := by
  induction l with
  | nil => rfl
  | cons c cs ih =>
    have hc : ¬c = sep := fun hcc => h (by rw [hcc]; exact List.mem_cons_self sep cs)
    have hcs : sep ∉ cs := fun hm => h (List.mem_cons_of_mem c hm)
    rw [KubeMount.splitChar, if_neg hc, ih hcs]

theorem isRooted_append (l l' : List Char) (h : l ≠ []) :
    isRooted (l ++ l') = isRooted l := by
  cases l with
  | nil => exact absurd rfl h
  | cons c t => rfl

theorem joinChunks_append_single :
    ∀ (st : List (List Char)) (x : List Char), st ≠ [] →
      joinChunks (st ++ [x]) = joinChunks st ++ '/' :: x
  | [], _, h => absurd rfl h
  | [_], _, _ => rfl
  | y :: z :: zs, x, _ => by
    have hrec := joinChunks_append_single (z :: zs) x (by simp)
    show joinChunks (y :: ((z :: zs) ++ [x])) = joinChunks (y :: z :: zs) ++ '/' :: x
    rw [show joinChunks (y :: ((z :: zs) ++ [x])) =
      y ++ '/' :: joinChunks ((z :: zs) ++ [x]) from rfl]
    rw [hrec]
    show y ++ '/' :: (joinChunks (z :: zs) ++ '/' :: x) =
      (y ++ '/' :: joinChunks (z :: zs)) ++ '/' :: x
    simp

theorem cleanStep_push (rooted : Bool) (st : List (List Char)) (c : List Char)
    (h0 : c ≠ []) (h1 : c ≠ ['.']) (h2 : c ≠ ['.', '.']) :
    cleanStep rooted st c = st ++ [c] := by
  rw [cleanStep, if_neg (by simp [h0, h1]), if_neg h2]

theorem cleanChars_append_component (l c : List Char)
    (hlne : l ≠ [])
    (hc0 : c ≠ []) (hc1 : c ≠ ['.']) (hc2 : c ≠ ['.', '.']) (hcs : '/' ∉ c)
    (hstack : (KubeMount.splitChar '/' l).foldl (cleanStep (isRooted l)) [] ≠ [])
    (hbody : joinChunks
      ((KubeMount.splitChar '/' l).foldl (cleanStep (isRooted l)) []) ≠ []) :
    cleanChars (l ++ '/' :: c) = cleanChars l ++ '/' :: c := by
  have hlen : l ++ '/' :: c ≠ [] := by simp
  rw [cleanChars, if_neg hlen, cleanChars, if_neg hlne]
  simp only [isRooted_append l ('/' :: c) hlne,
    splitChar_append '/' l c, splitChar_no_sep '/' c hcs,
    List.foldl_append, List.foldl_cons, List.foldl_nil,
    cleanStep_push (isRooted l) _ c hc0 hc1 hc2,
    joinChunks_append_single _ c hstack]
  cases hrt : isRooted l <;> rw [hrt] at hbody <;> simp [hbody]

/-- The escaped plugin name contains no '/'. -/
theorem escapePluginName_no_slash (pluginName : String) :
    '/' ∉ (escapePluginName pluginName).data := by
  intro hm
  obtain ⟨c, _, hc⟩ := List.mem_map.mp hm
  by_cases h : c = '/'
  · rw [if_pos h] at hc
    exact absurd hc (by decide)
  · rw [if_neg h] at hc
    exact h hc

theorem goJoinRawChars_snoc (elems : List (List Char)) (e : List Char)
    (h : goJoinRawChars elems ≠ []) :
    goJoinRawChars (elems ++ [e]) = goJoinRawChars elems ++ '/' :: e := by
  rw [goJoinRawChars] at h
  rw [goJoinRawChars, goJoinRawChars, List.foldl_append, List.foldl_cons,
    List.foldl_nil]
  rw [if_pos (Or.inl h), if_pos h]
  simp

/-- C8 (amended): `GetVolumePluginSocketPath` deterministically joins the
root directory, "plugin-sockets" and the plugin name with '/' replaced by
'~'; for every plugin name whose escaped form is not "", "." or "..", the
result is exactly the cleaned `<rootDir>/plugin-sockets` directory
followed by one slash-free component — it lies inside that directory.
(The escaping does not protect the literal names "." and "..".) -/
theorem GetVolumePluginSocketPath_inside (rootDir pluginName : String)
    (h0 : escapePluginName pluginName ≠ "")
    (h1 : escapePluginName pluginName ≠ ".")
    (h2 : escapePluginName pluginName ≠ "..") :
    GetVolumePluginSocketPath rootDir pluginName =
      goPathJoin [rootDir, "plugin-sockets"] ++ "/" ++ escapePluginName pluginName ∧
    '/' ∉ (escapePluginName pluginName).data := by
  refine ⟨?_, escapePluginName_no_slash pluginName⟩
  have hpd0 : (escapePluginName pluginName).data ≠ [] := fun hc =>
    h0 (String.ext (hc.trans (by decide)))
  have hpd1 : (escapePluginName pluginName).data ≠ ['.'] := fun hc =>
    h1 (String.ext (hc.trans (by decide)))
  have hpd2 : (escapePluginName pluginName).data ≠ ['.', '.'] := fun hc =>
    h2 (String.ext (hc.trans (by decide)))
  have hps0 : ("plugin-sockets".data : List Char) ≠ [] := by decide
  have hps1 : ("plugin-sockets".data : List Char) ≠ ['.'] := by decide
  have hps2 : ("plugin-sockets".data : List Char) ≠ ['.', '.'] := by decide
  have hpss : '/' ∉ ("plugin-sockets".data : List Char) := by decide
  have hraw2 : goJoinRawChars [rootDir.data, "plugin-sockets".data] =
      (if rootDir.data = [] then "plugin-sockets".data
       else rootDir.data ++ '/' :: "plugin-sockets".data) := by
    by_cases hr : rootDir.data = []
    · simp [goJoinRawChars, hr, hps0]
    · simp [goJoinRawChars, hr, hps0]
  have hraw2ne : goJoinRawChars [rootDir.data, "plugin-sockets".data] ≠ [] := by
    rw [hraw2]
    by_cases hr : rootDir.data = [] <;> simp [hr, hps0]
  have hraw3 : goJoinRawChars
      [rootDir.data, "plugin-sockets".data, (escapePluginName pluginName).data] =
      goJoinRawChars [rootDir.data, "plugin-sockets".data] ++
        '/' :: (escapePluginName pluginName).data :=
    goJoinRawChars_snoc [rootDir.data, "plugin-sockets".data] _ hraw2ne
  have hstack : ∃ st',
      (KubeMount.splitChar '/' (goJoinRawChars [rootDir.data, "plugin-sockets".data])).foldl
        (cleanStep (isRooted (goJoinRawChars [rootDir.data, "plugin-sockets".data]))) [] =
      st' ++ ["plugin-sockets".data] := by
    rw [hraw2]
    by_cases hr : rootDir.data = []
    · rw [if_pos hr, splitChar_no_sep '/' _ hpss]
      exact ⟨[], by
        rw [List.foldl_cons, List.foldl_nil, cleanStep_push _ _ _ hps0 hps1 hps2]⟩
    · rw [if_neg hr, splitChar_append '/' rootDir.data _,
        splitChar_no_sep '/' _ hpss, List.foldl_append, List.foldl_cons,
        List.foldl_nil]
      exact ⟨_, by rw [cleanStep_push _ _ _ hps0 hps1 hps2]⟩
  obtain ⟨st', hst⟩ := hstack
  have hstackne : (KubeMount.splitChar '/'
      (goJoinRawChars [rootDir.data, "plugin-sockets".data])).foldl
        (cleanStep (isRooted (goJoinRawChars [rootDir.data, "plugin-sockets".data]))) [] ≠ [] := by
    rw [hst]; simp
  have hbody : joinChunks ((KubeMount.splitChar '/'
      (goJoinRawChars [rootDir.data, "plugin-sockets".data])).foldl
        (cleanStep (isRooted (goJoinRawChars [rootDir.data, "plugin-sockets".data]))) []) ≠ [] := by
    rw [hst]
    by_cases h' : st' = []
    · rw [h']
      simp [joinChunks, hps0]
    · rw [joinChunks_append_single st' _ h']
      simp
  have hckey : cleanChars (goJoinRawChars
      [rootDir.data, "plugin-sockets".data, (escapePluginName pluginName).data]) =
      cleanChars (goJoinRawChars [rootDir.data, "plugin-sockets".data]) ++
        '/' :: (escapePluginName pluginName).data := by
    rw [hraw3]
    exact cleanChars_append_component _ _ hraw2ne hpd0 hpd1 hpd2
      (escapePluginName_no_slash pluginName) hstackne hbody
  have hpsie : ("plugin-sockets".data.isEmpty : Bool) = false := by decide
  have hg3 : ([rootDir, "plugin-sockets", escapePluginName pluginName].all
      (fun e => e.data.isEmpty)) = false := by
    simp [List.all_cons, hpsie]
  have hg2 : (([rootDir, "plugin-sockets"] : List String).all
      (fun e => e.data.isEmpty)) = false := by
    simp [List.all_cons, hpsie]
  rw [GetVolumePluginSocketPath, goPathJoin, goPathJoin, hg3, hg2]
  simp only [Bool.false_eq_true, if_false, List.map_cons, List.map_nil]
  rw [hckey]
  apply String.ext
  have hslash : (("/" : String).data : List Char) = ['/'] := by decide
  simp [String.data_append, hslash]

/-- Witness for C8's amended theorem at the qualified plugin name
`kubernetes.io/aws-ebs`, whose '/' is escaped to '~'. -/
theorem GetVolumePluginSocketPath_inside_witness :
    GetVolumePluginSocketPath "/var/lib/kubelet" "kubernetes.io/aws-ebs" =
      goPathJoin ["/var/lib/kubelet", "plugin-sockets"] ++ "/" ++
        escapePluginName "kubernetes.io/aws-ebs" ∧
    GetVolumePluginSocketPath "/var/lib/kubelet" "kubernetes.io/aws-ebs" =
      "/var/lib/kubelet/plugin-sockets/kubernetes.io~aws-ebs" := by
  refine ⟨(GetVolumePluginSocketPath_inside "/var/lib/kubelet" "kubernetes.io/aws-ebs"
    (by decide) (by decide) (by decide)).1, ?_⟩
  decide

/-- Counterexample to C8 as stated: the '/'→'~' escaping does not prevent
the plugin name ".." from escaping — `path.Join` cleans the path and the
socket path collapses to the root directory itself, which does not lie
inside the plugin-sockets directory. -/
theorem GetVolumePluginSocketPath_escape_counterexample :
    GetVolumePluginSocketPath "/var/lib/kubelet" ".." = "/var/lib/kubelet" ∧
    ((goPathJoin ["/var/lib/kubelet", "plugin-sockets"] ++ "/").data.isPrefixOf
      (GetVolumePluginSocketPath "/var/lib/kubelet" "..").data) = false := by
  constructor
  · decide
  · decide

end KubeletHost
